import Mathlib

/-!
# Verification of the Arrow `take` and primitive-equality kernels

This development embeds the two source files of the repository:

* `rust/arrow/src/compute/kernels/take.rs` — the `take` kernel and its
  per-layout implementations (`take_impl`, `take_primitive`, `take_boolean`,
  `take_string`, `take_list`, `take_fixed_size_list`, `take_dict`, and the
  struct branch of `take_impl`);
* `rust/arrow/src/array/equal/primitive.rs` — `primitive_equal`.

The embedding is split in two parts.

Part A models arrays as *logical views*: an array is its sequence of slot
values together with an optional validity bitmap (`none` means "no bitmap,
all valid", following the data-model invariant of the specification).  The
typed accessors `value`, `is_valid`, `is_null`, `null_count` used by
`take.rs` are not part of the sources, so they are modelled from the spec
(§3, §4.1): `value i` reads slot `i`, `is_valid i` reads bit `i` of the
bitmap, an absent bitmap behaves as all-ones.  Every output of `take` is
modelled as an `AData` record mirroring the `ArrayData::new` /
`ArrayData::builder` call that the source performs: the explicit `len`,
`offset`, null buffer and payload buffers that the source passes.

Part B models the *physical* layout of a primitive array — a flat buffer, a
raw null bitmap and a logical `offset` into both — which is what
`primitive_equal` manipulates directly, and what distinguishes a zero-copy
slice from an unsliced array.  `take_primitive` is embedded a second time at
this physical level to study slice transparency.
-/

/-- Modelled from the spec (§3, §4.1 null-bitmap utilities, not in the
sources): read bit `i` of an optional validity bitmap; an absent bitmap
behaves as all-ones ("no bitmap means zero nulls"). -/
def bitmapValid (bits : Option (List Bool)) (i : Nat) : Bool :=
  match bits with
  | none => true
  | some v => v.getD i true

/-- Modelled from the spec (§3, not in the sources): the null count of a
validity bitmap is the number of unset bits; an absent bitmap has none. -/
def bitmapNullCount (bits : Option (List Bool)) : Nat :=
  match bits with
  | none => 0
  | some v => v.count false

/-- Modelled from the spec (§4.1, not in the sources): `buffer_bin_and`
combines two bitmaps positionally with logical AND.  The `take` kernels
always call it with both bit offsets `0` and `len` equal to the length of
both inputs, so it is the positional AND of the two bit lists. -/
def bufferBinAnd (a b : List Bool) : List Bool :=
  List.zipWith and a b

/-- Logical view of a primitive array (`PrimitiveArray<T>` for a fixed-width
native type, or the index array of `take`): the physical slot values (a null
slot still stores a value) and the optional validity bitmap. -/
structure PrimArray (α : Type) where
  vals : List α
  valid : Option (List Bool)
deriving DecidableEq

/-- `PrimitiveArray::len`. -/
def PrimArray.len {α : Type} (a : PrimArray α) : Nat := a.vals.length

/-- Modelled from the spec: `PrimitiveArray::value(i)` reads slot `i` of the
logical view (total, with a default for out-of-range reads that the Rust
code would refuse). -/
def PrimArray.value {α : Type} [Inhabited α] (a : PrimArray α) (i : Nat) : α :=
  a.vals.getD i default

/-- Modelled from the spec: `Array::is_valid(i)` reads bit `i` of the
validity bitmap. -/
def PrimArray.isValid {α : Type} (a : PrimArray α) (i : Nat) : Bool :=
  bitmapValid a.valid i

/-- `Array::is_null(i)` is the negation of `is_valid`. -/
def PrimArray.isNull {α : Type} (a : PrimArray α) (i : Nat) : Bool :=
  !(a.isValid i)

/-- `Array::null_count`. -/
def PrimArray.nullCount {α : Type} (a : PrimArray α) : Nat :=
  bitmapNullCount a.valid

/-- Well-formedness of the logical view: a present bitmap covers exactly the
array's slots. -/
def PrimArray.wf {α : Type} (a : PrimArray α) : Bool :=
  match a.valid with
  | none => true
  | some v => v.length == a.vals.length

/-- Logical view of a string array (`GenericStringArray`): each slot is its
byte string, plus the optional validity bitmap. -/
structure StringArr where
  vals : List (List Nat)
  valid : Option (List Bool)
deriving DecidableEq

def StringArr.len (a : StringArr) : Nat := a.vals.length

/-- Modelled from the spec: `GenericStringArray::value(i)` resolves slot `i`
to its byte content via the offsets buffer; the logical view stores that
content directly. -/
def StringArr.value (a : StringArr) (i : Nat) : List Nat :=
  a.vals.getD i []

def StringArr.isValid (a : StringArr) (i : Nat) : Bool :=
  bitmapValid a.valid i

def StringArr.isNull (a : StringArr) (i : Nat) : Bool :=
  !(a.isValid i)

def StringArr.nullCount (a : StringArr) : Nat :=
  bitmapNullCount a.valid

/-- Logical view of a list array (`GenericListArray`): the offsets buffer
(`len + 1` entries), the flattened child value array (a primitive array in
this model) and the optional validity bitmap. -/
structure ListArr where
  offsets : List Nat
  child : PrimArray Int
  valid : Option (List Bool)
deriving DecidableEq

def ListArr.len (a : ListArr) : Nat := a.offsets.length - 1

def ListArr.isValid (a : ListArr) (i : Nat) : Bool :=
  bitmapValid a.valid i

def ListArr.isNull (a : ListArr) (i : Nat) : Bool :=
  !(a.isValid i)

/-- Logical view of a fixed-size-list array: the fixed child count per slot,
the child value array, the slot count and the optional validity bitmap. -/
structure FSLArr where
  size : Nat
  child : PrimArray Int
  len : Nat
  valid : Option (List Bool)
deriving DecidableEq

def FSLArr.isValid (a : FSLArr) (i : Nat) : Bool :=
  bitmapValid a.valid i

def FSLArr.isNull (a : FSLArr) (i : Nat) : Bool :=
  !(a.isValid i)

/-- Logical view of a struct array: one child per field (primitive children
in this model), the struct's own length and optional validity bitmap. -/
structure StructArr where
  len : Nat
  cols : List (PrimArray Int)
  valid : Option (List Bool)
deriving DecidableEq

/-- Logical view of a dictionary array: the integer keys (whose validity
bitmap is the dictionary array's validity) and the shared dictionary value
child, of an arbitrary payload type `χ`. -/
structure DictArr (χ : Type) where
  keys : PrimArray Int
  childData : χ
deriving DecidableEq

def DictArr.len {χ : Type} (a : DictArr χ) : Nat := a.keys.len

/-- A dictionary position is null exactly when its key is null. -/
def DictArr.isNull {χ : Type} (a : DictArr χ) (i : Nat) : Bool :=
  a.keys.isNull i

/-- The `ArrayData` record assembled by each `take` branch: the explicit
`len`, `offset` and null buffer passed to `ArrayData::new` /
`ArrayData::builder`, plus the layout-specific buffers and children as the
payload. -/
structure AData (π : Type) where
  len : Nat
  offset : Nat
  nulls : Option (List Bool)
  payload : π
deriving DecidableEq

/-- Logical nullness of an output position: bit `i` of the output's null
buffer (the output's offset is the one stored in the record, which every
`take` branch sets to `0`). -/
def AData.isNullAt {π : Type} (d : AData π) (i : Nat) : Bool :=
  match d.nulls with
  | none => false
  | some v => !(v.getD i true)

/-- `ArrowError` (only the variant the `take` kernel produces). -/
inductive ArrowError where
  | ComputeError (msg : String)
deriving DecidableEq

/-- `TakeOptions`. -/
structure TakeOptions where
  checkBounds : Bool
deriving DecidableEq

/-- `TakeOptions::default`: bounds checking disabled. -/
def TakeOptions.defaultOptions : TakeOptions := { checkBounds := false }

/-- `take_primitive` (take.rs): gather `values` at each index; the value
buffer is filled unconditionally (a null slot copies an arbitrary masked
value, as the source does).  If `values` has no nulls the output null buffer
is the indices' null buffer, cloned; otherwise a fresh bitmap recording
source nulls is computed and combined with the indices' bitmap by
`buffer_bin_and`. -/
def takePrimitive {α : Type} [Inhabited α] (values : PrimArray α)
    (indices : PrimArray Nat) : AData (List α) :=
  let dataLen := indices.len
  { len := dataLen
    offset := 0
    nulls :=
      if values.nullCount = 0 then
        indices.valid
      else
        let nullBuf := (List.range dataLen).map fun i =>
          !(values.isNull (indices.value i))
        match indices.valid with
        | some buffer => some (bufferBinAnd buffer nullBuf)
        | none => some nullBuf
    payload := (List.range dataLen).map fun i => values.value (indices.value i) }

/-- `take_boolean` (take.rs): same shape as `take_primitive` with a
bit-packed value buffer; in the nullable branch a null source slot leaves
the (zero-initialised) value bit unset. -/
def takeBoolean (values : PrimArray Bool) (indices : PrimArray Nat) :
    AData (List Bool) :=
  let dataLen := indices.len
  if values.nullCount = 0 then
    { len := dataLen
      offset := 0
      nulls := indices.valid
      payload := (List.range dataLen).map fun i => values.value (indices.value i) }
  else
    { len := dataLen
      offset := 0
      nulls :=
        let nullBuf := (List.range dataLen).map fun i =>
          !(values.isNull (indices.value i))
        match indices.valid with
        | some buffer => some (bufferBinAnd buffer nullBuf)
        | none => some nullBuf
      payload := (List.range dataLen).map fun i =>
        if values.isNull (indices.value i) then false
        else values.value (indices.value i) }

/-- The four loops of `take_string` (take.rs) differ only in the condition
under which an output slot contributes bytes (and advances the running
total): always; `array.is_valid(index)`; `indices.is_valid(i)`; or both.
This is that per-branch condition. -/
def stringKeep (values : StringArr) (indices : PrimArray Nat) (i : Nat) : Bool :=
  if values.nullCount = 0 && indices.nullCount = 0 then
    true
  else if indices.nullCount = 0 then
    values.isValid (indices.value i)
  else if values.nullCount = 0 then
    indices.isValid i
  else
    values.isValid (indices.value i) && indices.isValid i

/-- `take_string` (take.rs): the offsets buffer is built incrementally from
a running total byte length (`length_so_far`, starting at `0`), the value
buffer is the concatenation of the contributed byte strings, and the null
buffer is the per-branch one of the source: absent when neither side has
nulls; the fresh source-null bitmap when only `values` has nulls; the
indices' buffer, cloned, when only `indices` has nulls; their
`buffer_bin_and` otherwise. -/
def takeString (values : StringArr) (indices : PrimArray Nat) :
    AData (List Nat × List Nat) :=
  let dataLen := indices.len
  let keep := stringKeep values indices
  { len := dataLen
    offset := 0
    nulls :=
      if values.nullCount = 0 && indices.nullCount = 0 then
        none
      else if indices.nullCount = 0 then
        some ((List.range dataLen).map fun i => values.isValid (indices.value i))
      else if values.nullCount = 0 then
        indices.valid
      else
        let nullBuf := (List.range dataLen).map fun i =>
          values.isValid (indices.value i) && indices.isValid i
        match indices.valid with
        | some buffer => some (bufferBinAnd buffer nullBuf)
        | none => some nullBuf
    payload :=
      ((List.range dataLen).scanl
        (fun lengthSoFar i =>
          lengthSoFar + (if keep i then (values.value (indices.value i)).length else 0))
        0,
       (List.range dataLen).flatMap fun i =>
        if keep i then values.value (indices.value i) else []) }

/-- The child range length resolved for output position `i` of a list take:
the width of the source slot's offset pair for a valid index, the empty
range for a null index. -/
def listRangeLen (lv : ListArr) (indices : PrimArray Nat) (i : Nat) : Nat :=
  if indices.isValid i then
    lv.offsets.getD (indices.value i + 1) 0 - lv.offsets.getD (indices.value i) 0
  else 0

/-- Modelled from the spec (§4.3 List, not in the sources):
`take_value_indices_from_list` (declared in `compute::util`) resolves, for
each output position, the source slot's offset pair into the child index
range `[offsets[ix], offsets[ix+1])` — empty for a null index — and
recomputes the new offsets as the running sums of the resolved range
lengths, starting at `0`. -/
def takeValueIndicesFromList (lv : ListArr) (indices : PrimArray Nat) :
    PrimArray Nat × List Nat :=
  (⟨(List.range indices.len).flatMap fun i =>
      if indices.isValid i then
        (List.range (listRangeLen lv indices i)).map fun k =>
          lv.offsets.getD (indices.value i) 0 + k
      else [],
    none⟩,
   (List.range indices.len).scanl (fun cur i => cur + listRangeLen lv indices i) 0)

/-- `take_list` (take.rs): take the child with the flattened value indices,
then unset null-buffer bit `i` exactly when the recomputed offsets window
`offsets[i] == offsets[i+1]` is degenerate. -/
def takeList (lv : ListArr) (indices : PrimArray Nat) :
    AData (List Nat × AData (List Int)) :=
  let p := takeValueIndicesFromList lv indices
  { len := indices.len
    offset := 0
    nulls := some ((List.range indices.len).map fun i =>
      !(p.2.getD i 0 == p.2.getD (i + 1) 0))
    payload := (p.2, takePrimitive lv.child p.1) }

/-- Modelled from the spec (§4.3 fixed-size list, not in the sources):
`take_value_indices_from_fixed_size_list` flattens each valid index `ix`
into the child range `[ix * length, (ix+1) * length)`. -/
def takeValueIndicesFromFixedSizeList (indices : PrimArray Nat)
    (length : Nat) : PrimArray Nat :=
  ⟨(List.range indices.len).flatMap fun i =>
    if indices.isValid i then
      (List.range length).map fun k => indices.value i * length + k
    else [],
   none⟩

/-- `take_fixed_size_list` (take.rs): take the child with the flattened
indices; null-buffer bit `i` is unset when the index is null or the source
slot is null. -/
def takeFixedSizeList (fv : FSLArr) (indices : PrimArray Nat) :
    AData (AData (List Int)) :=
  { len := indices.len
    offset := 0
    nulls := some ((List.range indices.len).map fun i =>
      !(!(indices.isValid i) || fv.isNull (indices.value i)))
    payload := takePrimitive fv.child (takeValueIndicesFromFixedSizeList indices fv.size) }

/-- Modelled from the spec (§3) and the in-source tests (not in the
sources): `StructArray::from(Vec<(Field, ArrayRef)>)` assembles the child
arrays under a new `ArrayData` whose length is the first child's length and
which carries *no* top-level null bitmap — the in-source test
`test_take_struct_with_nulls` asserts the take result's `null_count` is `0`
even for null indices.  (The source panics on an empty field list; the
model returns length `0` there, and the struct theorems assume at least one
field where the length matters.) -/
def structArrayFromPairs (cols : List (AData (List Int))) :
    AData (List (AData (List Int))) :=
  { len :=
      match cols with
      | [] => 0
      | c :: _ => c.len
    offset := 0
    nulls := none
    payload := cols }

/-- The struct branch of `take_impl` with bounds checking disabled: take
every column with the same index array and assemble the results. -/
def takeStruct (sv : StructArr) (indices : PrimArray Nat) :
    AData (List (AData (List Int))) :=
  structArrayFromPairs (sv.cols.map fun c => takePrimitive c indices)

/-- `take_dict` (take.rs): take the keys as a primitive take and rebuild the
dictionary `ArrayData` from the new keys' length, null buffer and value
buffer together with the *input's own* child data. -/
def takeDict {χ : Type} (dict : DictArr χ) (indices : PrimArray Nat) :
    AData (List Int × χ) :=
  let newKeys := takePrimitive dict.keys indices
  { len := newKeys.len
    offset := 0
    nulls := newKeys.nulls
    payload := (newKeys.payload, dict.childData) }

/-- The error message of the bounds check in `take_impl` (take.rs). -/
def oobMessage (ix len : Nat) : String :=
  "Array index out of bounds, cannot get item at index " ++ toString ix ++
    " from " ++ toString len ++ " entries"

/-- The bounds-check loop of `take_impl`, walking the given positions in
order and failing at the first valid index outside `[0, len)`.  (The index
cast to `usize` cannot fail in this model: public `take` uses `u32`
indices.) -/
def boundsCheckGo (len : Nat) (indices : PrimArray Nat) :
    List Nat → Except ArrowError Unit
  | [] => Except.ok ()
  | i :: rest =>
    if indices.isValid i then
      if len ≤ indices.value i then
        Except.error (ArrowError.ComputeError (oobMessage (indices.value i) len))
      else boundsCheckGo len indices rest
    else boundsCheckGo len indices rest

/-- The bounds check of `take_impl`: every non-null index of `indices` must
lie in `[0, len)`, checked in position order. -/
def boundsCheck (len : Nat) (indices : PrimArray Nat) : Except ArrowError Unit :=
  boundsCheckGo len indices (List.range indices.len)

/-- The type-erased input of `take`: one constructor per supported layout
family (a primitive layout is instantiated at `Int` slots, the dictionary
value child at a string array, matching the in-source tests). -/
inductive ArrV where
  | primV (a : PrimArray Int)
  | boolV (a : PrimArray Bool)
  | strV (a : StringArr)
  | listV (a : ListArr)
  | fslV (a : FSLArr)
  | structV (a : StructArr)
  | dictV (a : DictArr StringArr)
deriving DecidableEq

/-- `Array::len` of the type-erased input (`values.len()` in `take_impl`). -/
def ArrV.lenV : ArrV → Nat
  | .primV a => a.len
  | .boolV a => a.len
  | .strV a => a.len
  | .listV a => a.len
  | .fslV a => a.len
  | .structV a => a.len
  | .dictV a => a.len

/-- A struct input has at least one field (the source's
`StructArray::from` reads the first child's length and panics otherwise);
trivial at every other layout. -/
def ArrV.structNonempty : ArrV → Bool
  | .structV a => !a.cols.isEmpty
  | _ => true

/-- The type-erased output of `take`: the `ArrayData` produced by the
matching layout branch. -/
inductive OutV where
  | primO (d : AData (List Int))
  | boolO (d : AData (List Bool))
  | strO (d : AData (List Nat × List Nat))
  | listO (d : AData (List Nat × AData (List Int)))
  | fslO (d : AData (AData (List Int)))
  | structO (d : AData (List (AData (List Int))))
  | dictO (d : AData (List Int × StringArr))
deriving DecidableEq

/-- The logical length of the output `ArrayData`. -/
def OutV.lenO : OutV → Nat
  | .primO d => d.len
  | .boolO d => d.len
  | .strO d => d.len
  | .listO d => d.len
  | .fslO d => d.len
  | .structO d => d.len
  | .dictO d => d.len

/-- The logical offset of the output `ArrayData`. -/
def OutV.offsetO : OutV → Nat
  | .primO d => d.offset
  | .boolO d => d.offset
  | .strO d => d.offset
  | .listO d => d.offset
  | .fslO d => d.offset
  | .structO d => d.offset
  | .dictO d => d.offset

/-- The struct branch's per-column recursion
(`.map(|a| take_impl(a, indices, Some(options)))..collect::<Result<_>>()`):
each recursive `take_impl` re-runs the bounds check against the column's own
length before producing the column's take. -/
def takeColumns (opts : TakeOptions) (indices : PrimArray Nat) :
    List (PrimArray Int) → Except ArrowError (List (AData (List Int)))
  | [] => Except.ok []
  | c :: cs =>
    match (if opts.checkBounds then boundsCheck c.len indices else Except.ok ()) with
    | Except.error e => Except.error e
    | Except.ok _ =>
      match takeColumns opts indices cs with
      | Except.error e => Except.error e
      | Except.ok rest => Except.ok (takePrimitive c indices :: rest)

/-- `take_impl` (take.rs): run the bounds check first when requested, then
dispatch on the layout of `values`. -/
def takeImpl (values : ArrV) (indices : PrimArray Nat)
    (options : Option TakeOptions) : Except ArrowError OutV :=
  let opts := options.getD TakeOptions.defaultOptions
  match (if opts.checkBounds then boundsCheck values.lenV indices else Except.ok ()) with
  | Except.error e => Except.error e
  | Except.ok _ =>
    match values with
    | .primV a => Except.ok (.primO (takePrimitive a indices))
    | .boolV a => Except.ok (.boolO (takeBoolean a indices))
    | .strV a => Except.ok (.strO (takeString a indices))
    | .listV a => Except.ok (.listO (takeList a indices))
    | .fslV a => Except.ok (.fslO (takeFixedSizeList a indices))
    | .structV a =>
      match takeColumns opts indices a.cols with
      | Except.error e => Except.error e
      | Except.ok arrays => Except.ok (.structO (structArrayFromPairs arrays))
    | .dictV a => Except.ok (.dictO (takeDict a indices))

/-- `take` (take.rs): the public entry point, `take_impl` with `u32`
indices. -/
def take (values : ArrV) (indices : PrimArray Nat)
    (options : Option TakeOptions) : Except ArrowError OutV :=
  takeImpl values indices options

/-!
## Part B: physical layout and `primitive_equal`

`primitive_equal` works on raw `ArrayData`: a byte buffer, a raw null
bitmap and a logical `offset` into both.  A zero-copy slice shares the
buffers and bitmap and only changes `offset`/`len`.
-/

/-- Physical `ArrayData` of a primitive array as `primitive_equal` sees it:
`buffer` is the bytes of `buffers()[0]`, `nullBitmap` the raw bits of the
null buffer; logical position `i` lives at element `offset + i`. -/
structure ArrayDataP where
  buffer : List Nat
  offset : Nat
  len : Nat
  nullBitmap : Option (List Bool)
deriving DecidableEq

/-- Modelled from the spec (§3, not in the sources): `ArrayData::is_null(i)`
reads bit `offset + i` of the raw null bitmap. -/
def ArrayDataP.isNull (a : ArrayDataP) (i : Nat) : Bool :=
  !(bitmapValid a.nullBitmap (a.offset + i))

/-- Modelled from the spec (§3, not in the sources): `null_count` counts the
unset bits of the bitmap over the logical window `[offset, offset+len)`. -/
def ArrayDataP.nullCount (a : ArrayDataP) : Nat :=
  match a.nullBitmap with
  | none => 0
  | some v => ((v.drop a.offset).take a.len).count false

/-- Modelled from the spec (not in the sources): `equal_len` (from
`array::equal::utils`) compares `len` bytes of the two buffers starting at
the two byte positions. -/
def equalLen (lhs rhs : List Nat) (lhsStart rhsStart len : Nat) : Bool :=
  (lhs.drop lhsStart).take len == (rhs.drop rhsStart).take len

/-- `primitive_equal` (equal/primitive.rs) for a native type of
`byteWidth` bytes: slice both value buffers at `offset * byte_width`; if
neither side has nulls compare the raw byte ranges in one shot, otherwise
compare position by position with the source's
`lhs_is_null || (lhs_is_null == rhs_is_null) && equal_len(..)` condition. -/
def primitiveEqual (byteWidth : Nat) (lhs rhs : ArrayDataP)
    (lhsStart rhsStart len : Nat) : Bool :=
  let lhsValues := lhs.buffer.drop (lhs.offset * byteWidth)
  let rhsValues := rhs.buffer.drop (rhs.offset * byteWidth)
  if lhs.nullCount = 0 && rhs.nullCount = 0 then
    equalLen lhsValues rhsValues (lhsStart * byteWidth) (rhsStart * byteWidth)
      (len * byteWidth)
  else
    (List.range len).all fun i =>
      let lhsPos := lhsStart + i
      let rhsPos := rhsStart + i
      let lhsIsNull := lhs.isNull lhsPos
      let rhsIsNull := rhs.isNull rhsPos
      lhsIsNull ||
        ((lhsIsNull == rhsIsNull) &&
          equalLen lhsValues rhsValues (lhsPos * byteWidth) (rhsPos * byteWidth)
            byteWidth)

/-- Physical primitive array for the physical embedding of
`take_primitive`: a flat element buffer, a raw null bitmap and the logical
`offset`/`len` of the view (a zero-copy slice changes only these two). -/
structure PrimArrayP (α : Type) where
  vals : List α
  offset : Nat
  len : Nat
  nullBitmap : Option (List Bool)
deriving DecidableEq

/-- Modelled from the spec: `PrimitiveArray::value(i)` reads element
`offset + i` of the shared buffer. -/
def PrimArrayP.value {α : Type} [Inhabited α] (a : PrimArrayP α) (i : Nat) : α :=
  a.vals.getD (a.offset + i) default

/-- Modelled from the spec: validity of logical position `i` is raw bit
`offset + i`. -/
def PrimArrayP.isValid {α : Type} (a : PrimArrayP α) (i : Nat) : Bool :=
  bitmapValid a.nullBitmap (a.offset + i)

def PrimArrayP.isNull {α : Type} (a : PrimArrayP α) (i : Nat) : Bool :=
  !(a.isValid i)

/-- Modelled from the spec: `null_count` over the logical window. -/
def PrimArrayP.nullCount {α : Type} (a : PrimArrayP α) : Nat :=
  match a.nullBitmap with
  | none => 0
  | some v => ((v.drop a.offset).take a.len).count false

/-- Modelled from the spec (§4.1): `buffer_bin_and(a, a_off, b, b_off, len)`
produces the bitmap whose bit `i` is `a[a_off+i] && b[b_off+i]`. -/
def bufferBinAndP (a : List Bool) (aOff : Nat) (b : List Bool) (bOff len : Nat) :
    List Bool :=
  (List.range len).map fun i => (a.getD (aOff + i) true) && (b.getD (bOff + i) true)

/-- `take_primitive` (take.rs) at the physical level.  Note the two places
the source handles the indices' null bitmap: `nulls =
indices.data_ref().null_buffer().cloned()` reuses the *raw* bitmap without
adjusting for the indices' offset, and `buffer_bin_and(buffer, 0, ..)`
passes bit offset `0` rather than the indices' offset.  The output is built
with offset `0`. -/
def takePrimitiveP {α : Type} [Inhabited α] (values : PrimArrayP α)
    (indices : PrimArrayP Nat) : PrimArrayP α :=
  let dataLen := indices.len
  { vals := (List.range dataLen).map fun i => values.value (indices.value i)
    offset := 0
    len := dataLen
    nullBitmap :=
      if values.nullCount = 0 then
        indices.nullBitmap
      else
        let nullBuf := (List.range dataLen).map fun i =>
          !(values.isNull (indices.value i))
        match indices.nullBitmap with
        | some buffer => some (bufferBinAndP buffer 0 nullBuf 0 dataLen)
        | none => some nullBuf }

/-!
## Helper lemmas
-/

theorem getD_mapRange {α : Type} (f : Nat → α) {n i : Nat} (d : α) (hi : i < n) :
    ((List.range n).map f).getD i d = f i := by
  rw [List.getD_eq_getElem _ _ (by simpa using hi)]
  simp

theorem bitmapValid_of_nullCount_zero {bits : Option (List Bool)}
    (h : bitmapNullCount bits = 0) (i : Nat) : bitmapValid bits i = true := by
  cases bits with
  | none => rfl
  | some v =>
    simp only [bitmapNullCount] at h
    simp only [bitmapValid]
    rcases Nat.lt_or_ge i v.length with hlt | hge
    · rw [List.getD_eq_getElem _ _ hlt]
      cases hvi : v[i] with
      | true => rfl
      | false =>
        exact absurd (hvi ▸ List.getElem_mem hlt) (List.count_eq_zero.mp h)
    · rw [List.getD_eq_default _ _ hge]

theorem getD_zipWith_and {a b : List Bool} {i : Nat}
    (ha : i < a.length) (hb : i < b.length) :
    (List.zipWith and a b).getD i true = (a.getD i true && b.getD i true) := by
  rw [List.getD_eq_getElem _ _ (by simp [List.length_zipWith]; omega),
    List.getD_eq_getElem _ _ ha, List.getD_eq_getElem _ _ hb]
  exact List.getElem_zipWith

theorem scanl_range_getD_zero (g : Nat → Nat → Nat) (n a : Nat) :
    ((List.range n).scanl g a).getD 0 0 = a := by
  rw [List.getD_eq_getElem _ _ (by simp [List.length_scanl])]
  exact List.getElem_scanl_zero

theorem scanl_range_getD_succ (g : Nat → Nat → Nat) {n i : Nat} (a : Nat)
    (hi : i < n) :
    ((List.range n).scanl g a).getD (i + 1) 0
      = g (((List.range n).scanl g a).getD i 0) i := by
  have hlen : ((List.range n).scanl g a).length = n + 1 := by
    simp [List.length_scanl]
  rw [List.getD_eq_getElem _ _ (by omega), List.getD_eq_getElem _ _ (by omega),
    List.getElem_succ_scanl]
  simp

theorem wf_length {α : Type} {a : PrimArray α} {v : List Bool}
    (hw : a.wf = true) (hv : a.valid = some v) : v.length = a.len := by
  simp only [PrimArray.wf, hv, PrimArray.len] at hw ⊢
  simpa using hw

theorem isNull_of_nullCount_zero {α : Type} {a : PrimArray α}
    (h : a.nullCount = 0) (i : Nat) : a.isNull i = false := by
  simp [PrimArray.isNull, PrimArray.isValid, bitmapValid_of_nullCount_zero h]

theorem takePrimitive_isNullAt {α : Type} [Inhabited α] (values : PrimArray α)
    (indices : PrimArray Nat) (hw : indices.wf = true) {i : Nat}
    (hi : i < indices.len) :
    (takePrimitive values indices).isNullAt i
      = (indices.isNull i || values.isNull (indices.value i)) := by
  by_cases hnc : values.nullCount = 0
  · rw [isNull_of_nullCount_zero hnc, Bool.or_false]
    cases hv : indices.valid with
    | none =>
      simp [takePrimitive, AData.isNullAt, hnc, hv, PrimArray.isNull,
        PrimArray.isValid, bitmapValid]
    | some v =>
      simp [takePrimitive, AData.isNullAt, hnc, hv, PrimArray.isNull,
        PrimArray.isValid, bitmapValid]
  · cases hv : indices.valid with
    | none =>
      have h1 : (takePrimitive values indices).isNullAt i
          = !((List.range indices.len).map
              fun j => !(values.isNull (indices.value j))).getD i true := by
        simp [takePrimitive, AData.isNullAt, hnc, hv]
      rw [h1, getD_mapRange _ _ hi]
      simp [PrimArray.isNull, PrimArray.isValid, bitmapValid, hv]
    | some v =>
      have hvl : v.length = indices.len := wf_length hw hv
      have h1 : (takePrimitive values indices).isNullAt i
          = !(bufferBinAnd v ((List.range indices.len).map
              fun j => !(values.isNull (indices.value j)))).getD i true := by
        simp [takePrimitive, AData.isNullAt, hnc, hv, bufferBinAnd]
      have hin : indices.isNull i = !(v.getD i true) := by
        simp [PrimArray.isNull, PrimArray.isValid, bitmapValid, hv]
      rw [h1, bufferBinAnd, getD_zipWith_and (by omega) (by simpa using hi),
        getD_mapRange _ _ hi, hin]
      cases v.getD i true <;> cases values.isNull (indices.value i) <;> rfl

theorem takeBoolean_isNullAt (values : PrimArray Bool)
    (indices : PrimArray Nat) (hw : indices.wf = true) {i : Nat}
    (hi : i < indices.len) :
    (takeBoolean values indices).isNullAt i
      = (indices.isNull i || values.isNull (indices.value i)) := by
  by_cases hnc : values.nullCount = 0
  · rw [isNull_of_nullCount_zero hnc, Bool.or_false]
    cases hv : indices.valid with
    | none =>
      simp [takeBoolean, AData.isNullAt, hnc, hv, PrimArray.isNull,
        PrimArray.isValid, bitmapValid]
    | some v =>
      simp [takeBoolean, AData.isNullAt, hnc, hv, PrimArray.isNull,
        PrimArray.isValid, bitmapValid]
  · cases hv : indices.valid with
    | none =>
      have h1 : (takeBoolean values indices).isNullAt i
          = !((List.range indices.len).map
              fun j => !(values.isNull (indices.value j))).getD i true := by
        simp [takeBoolean, AData.isNullAt, hnc, hv]
      rw [h1, getD_mapRange _ _ hi]
      simp [PrimArray.isNull, PrimArray.isValid, bitmapValid, hv]
    | some v =>
      have hvl : v.length = indices.len := wf_length hw hv
      have h1 : (takeBoolean values indices).isNullAt i
          = !(bufferBinAnd v ((List.range indices.len).map
              fun j => !(values.isNull (indices.value j)))).getD i true := by
        simp [takeBoolean, AData.isNullAt, hnc, hv, bufferBinAnd]
      have hin : indices.isNull i = !(v.getD i true) := by
        simp [PrimArray.isNull, PrimArray.isValid, bitmapValid, hv]
      rw [h1, bufferBinAnd, getD_zipWith_and (by omega) (by simpa using hi),
        getD_mapRange _ _ hi, hin]
      cases v.getD i true <;> cases values.isNull (indices.value i) <;> rfl

theorem strIsNull_of_nullCount_zero {a : StringArr}
    (h : a.nullCount = 0) (i : Nat) : a.isNull i = false := by
  simp [StringArr.isNull, StringArr.isValid, bitmapValid_of_nullCount_zero h]

theorem valid_some_of_nullCount_ne {α : Type} {a : PrimArray α}
    (h : a.nullCount ≠ 0) : ∃ v, a.valid = some v := by
  cases hv : a.valid with
  | none => exact absurd (by simp [PrimArray.nullCount, bitmapNullCount, hv]) h
  | some v => exact ⟨v, rfl⟩

theorem takeString_isNullAt_keep (sv : StringArr) (indices : PrimArray Nat)
    (hw : indices.wf = true) {i : Nat} (hi : i < indices.len) :
    (takeString sv indices).isNullAt i = !(stringKeep sv indices i) := by
  by_cases h1 : sv.nullCount = 0 <;> by_cases h2 : indices.nullCount = 0
  · simp [takeString, stringKeep, AData.isNullAt, h1, h2]
  · obtain ⟨v, hv⟩ := valid_some_of_nullCount_ne h2
    simp [takeString, stringKeep, AData.isNullAt, h1, h2, hv, PrimArray.isNull,
      PrimArray.isValid, bitmapValid]
  · have h3 : (takeString sv indices).isNullAt i
        = !((List.range indices.len).map
            fun j => sv.isValid (indices.value j)).getD i true := by
      simp [takeString, AData.isNullAt, h1, h2]
    rw [h3, getD_mapRange _ _ hi]
    simp [stringKeep, h1, h2]
  · obtain ⟨v, hv⟩ := valid_some_of_nullCount_ne h2
    have hvl : v.length = indices.len := wf_length hw hv
    have h3 : (takeString sv indices).isNullAt i
        = !(bufferBinAnd v ((List.range indices.len).map
            fun j => sv.isValid (indices.value j) && indices.isValid j)).getD i true := by
      simp [takeString, AData.isNullAt, h1, h2, hv, bufferBinAnd]
    have hiv : indices.isValid i = v.getD i true := by
      simp [PrimArray.isValid, bitmapValid, hv]
    rw [h3, bufferBinAnd, getD_zipWith_and (by omega) (by simpa using hi),
      getD_mapRange _ _ hi]
    simp only [stringKeep, h1, h2, hiv, if_neg, decide_eq_true_eq]
    cases v.getD i true <;> cases sv.isValid (indices.value i) <;> simp

theorem takeString_isNullAt (sv : StringArr) (indices : PrimArray Nat)
    (hw : indices.wf = true) {i : Nat} (hi : i < indices.len) :
    (takeString sv indices).isNullAt i
      = (indices.isNull i || sv.isNull (indices.value i)) := by
  rw [takeString_isNullAt_keep sv indices hw hi]
  by_cases h1 : sv.nullCount = 0 <;> by_cases h2 : indices.nullCount = 0
  · simp [stringKeep, h1, h2, isNull_of_nullCount_zero h2,
      strIsNull_of_nullCount_zero h1]
  · simp [stringKeep, h1, h2, strIsNull_of_nullCount_zero h1, PrimArray.isNull]
  · simp [stringKeep, h1, h2, isNull_of_nullCount_zero h2, StringArr.isNull]
  · simp [stringKeep, h1, h2, StringArr.isNull, PrimArray.isNull, Bool.not_and,
      Bool.or_comm]

theorem takeList_offsets_zero (lv : ListArr) (indices : PrimArray Nat) :
    (takeList lv indices).payload.1.getD 0 0 = 0 :=
  scanl_range_getD_zero _ _ 0

theorem takeList_offsets_succ (lv : ListArr) (indices : PrimArray Nat) {i : Nat}
    (hi : i < indices.len) :
    (takeList lv indices).payload.1.getD (i + 1) 0
      = (takeList lv indices).payload.1.getD i 0 + listRangeLen lv indices i :=
  scanl_range_getD_succ _ _ hi

theorem takeList_isNullAt_iff (lv : ListArr) (indices : PrimArray Nat) {i : Nat}
    (hi : i < indices.len) :
    ((takeList lv indices).isNullAt i = true ↔
      (takeList lv indices).payload.1.getD i 0
        = (takeList lv indices).payload.1.getD (i + 1) 0) := by
  have h3 : (takeList lv indices).isNullAt i
      = ((takeValueIndicesFromList lv indices).2.getD i 0
          == (takeValueIndicesFromList lv indices).2.getD (i + 1) 0) := by
    simp only [takeList, AData.isNullAt]
    rw [getD_mapRange _ _ hi]
    simp
  rw [h3]
  simp [takeList]

theorem takeList_isNullAt_rangeLen (lv : ListArr) (indices : PrimArray Nat)
    {i : Nat} (hi : i < indices.len) :
    (takeList lv indices).isNullAt i = (listRangeLen lv indices i == 0) := by
  have h3 : (takeList lv indices).isNullAt i
      = ((takeList lv indices).payload.1.getD i 0
          == (takeList lv indices).payload.1.getD (i + 1) 0) := by
    simp only [takeList, AData.isNullAt]
    rw [getD_mapRange _ _ hi]
    simp
  rw [h3, takeList_offsets_succ lv indices hi]
  by_cases hr : listRangeLen lv indices i = 0 <;> simp [hr]

theorem takeFixedSizeList_isNullAt (fv : FSLArr) (indices : PrimArray Nat)
    {i : Nat} (hi : i < indices.len) :
    (takeFixedSizeList fv indices).isNullAt i
      = (indices.isNull i || fv.isNull (indices.value i)) := by
  simp only [takeFixedSizeList, AData.isNullAt]
  rw [getD_mapRange _ _ hi]
  simp [PrimArray.isNull]

theorem takeStruct_nulls_none (sv : StructArr) (indices : PrimArray Nat) :
    (takeStruct sv indices).nulls = none := rfl

theorem takeStruct_isNullAt (sv : StructArr) (indices : PrimArray Nat) (i : Nat) :
    (takeStruct sv indices).isNullAt i = false := rfl

theorem takeDict_isNullAt {χ : Type} (dv : DictArr χ) (indices : PrimArray Nat)
    (hw : indices.wf = true) {i : Nat} (hi : i < indices.len) :
    (takeDict dv indices).isNullAt i
      = (indices.isNull i || dv.keys.isNull (indices.value i)) := by
  have h0 : (takeDict dv indices).isNullAt i
      = (takePrimitive dv.keys indices).isNullAt i := rfl
  rw [h0, takePrimitive_isNullAt dv.keys indices hw hi]

theorem boundsCheckGo_error (len : Nat) (indices : PrimArray Nat) {i : Nat}
    (hvalid : indices.isValid i = true) (hoob : len ≤ indices.value i) :
    ∀ (k s : Nat), s ≤ i → i < s + k →
      (∀ j, s ≤ j → j < i → indices.isValid j = true → indices.value j < len) →
      boundsCheckGo len indices (List.range' s k)
        = Except.error (ArrowError.ComputeError (oobMessage (indices.value i) len)) := by
  intro k
  induction k with
  | zero => intro s hs hik _; omega
  | succ k ih =>
    intro s hs hik hfirst
    rw [List.range'_succ]
    rcases Nat.lt_or_ge s i with hsi | hsi
    · have hok : indices.isValid s = true → indices.value s < len :=
        hfirst s (Nat.le_refl s) hsi
      simp only [boundsCheckGo]
      by_cases hv : indices.isValid s = true
      · rw [if_pos hv, if_neg (by have := hok hv; omega)]
        exact ih (s + 1) (by omega) (by omega)
          (fun j h1 h2 h3 => hfirst j (by omega) h2 h3)
      · rw [if_neg hv]
        exact ih (s + 1) (by omega) (by omega)
          (fun j h1 h2 h3 => hfirst j (by omega) h2 h3)
    · have hsi' : s = i := by omega
      subst hsi'
      simp only [boundsCheckGo]
      rw [if_pos hvalid, if_pos hoob]

theorem boundsCheck_error (len : Nat) (indices : PrimArray Nat) {i : Nat}
    (hi : i < indices.len) (hvalid : indices.isValid i = true)
    (hoob : len ≤ indices.value i)
    (hfirst : ∀ j, j < i → indices.isValid j = true → indices.value j < len) :
    boundsCheck len indices
      = Except.error (ArrowError.ComputeError (oobMessage (indices.value i) len)) := by
  rw [boundsCheck, List.range_eq_range']
  exact boundsCheckGo_error len indices hvalid hoob indices.len 0 (Nat.zero_le i)
    (by omega) (fun j h1 h2 h3 => hfirst j h2 h3)

theorem takeColumns_ok {opts : TakeOptions} {indices : PrimArray Nat}
    {cols : List (PrimArray Int)} {r : List (AData (List Int))}
    (h : takeColumns opts indices cols = Except.ok r) :
    r = cols.map fun c => takePrimitive c indices := by
  induction cols generalizing r with
  | nil =>
    simp only [takeColumns] at h
    cases h
    rfl
  | cons c cs ih =>
    simp only [takeColumns] at h
    cases hb : (if opts.checkBounds then boundsCheck c.len indices else Except.ok ()) with
    | error e => rw [hb] at h; cases h
    | ok u =>
      rw [hb] at h
      cases hr : takeColumns opts indices cs with
      | error e => rw [hr] at h; cases h
      | ok rest =>
        rw [hr] at h
        cases h
        rw [List.map_cons, ih hr]

theorem flatMap_congr {α β : Type} {l : List α} {f g : α → List β}
    (h : ∀ x ∈ l, f x = g x) : l.flatMap f = l.flatMap g := by
  induction l with
  | nil => rfl
  | cons x xs ih =>
    simp only [List.flatMap_cons]
    rw [h x (List.mem_cons_self x xs), ih fun y hy => h y (List.mem_cons_of_mem x hy)]

theorem take_append_of_le_length {A : List Nat} {s m k : Nat} :
    (A.drop s).take (m + k) = (A.drop s).take m ++ (A.drop (s + m)).take k := by
  rw [List.take_add, List.drop_drop]

theorem length_take_drop {A : List Nat} {s m : Nat} (h : s + m ≤ A.length) :
    ((A.drop s).take m).length = m := by
  simp only [List.length_take, List.length_drop]
  omega

theorem equalLen_windows (A B : List Nat) (bw : Nat) :
    ∀ (n l r : Nat), (l + n) * bw ≤ A.length → (r + n) * bw ≤ B.length →
      (equalLen A B (l * bw) (r * bw) (n * bw) = true ↔
        ∀ i, i < n → equalLen A B ((l + i) * bw) ((r + i) * bw) bw = true) := by
  intro n
  induction n with
  | zero =>
    intro l r _ _
    simp [equalLen]
  | succ n ih =>
    intro l r hA hB
    have hmul : ∀ m : Nat, m * bw + bw = (m + 1) * bw := by
      intro m; ring
    have hsplit : ∀ (C : List Nat) (s : Nat),
        (C.drop s).take ((n + 1) * bw)
          = (C.drop s).take bw ++ (C.drop (s + bw)).take (n * bw) := by
      intro C s
      rw [Nat.succ_mul, Nat.add_comm (n * bw) bw]
      exact take_append_of_le_length
    have hlA : (l + 1 + n) * bw ≤ A.length := by
      have h9 : (l + 1 + n) * bw = (l + (n + 1)) * bw := by ring
      omega
    have hlB : (r + 1 + n) * bw ≤ B.length := by
      have h9 : (r + 1 + n) * bw = (r + (n + 1)) * bw := by ring
      omega
    have hlenA : ((A.drop (l * bw)).take bw).length = bw := by
      refine length_take_drop ?_
      have h1 : l * bw + bw = (l + 1) * bw := by ring
      have h2 : (l + 1) * bw ≤ (l + (n + 1)) * bw :=
        Nat.mul_le_mul_right bw (by omega)
      omega
    have hlenB : ((B.drop (r * bw)).take bw).length = bw := by
      refine length_take_drop ?_
      have h1 : r * bw + bw = (r + 1) * bw := by ring
      have h2 : (r + 1) * bw ≤ (r + (n + 1)) * bw :=
        Nat.mul_le_mul_right bw (by omega)
      omega
    have hdecomp : (equalLen A B (l * bw) (r * bw) ((n + 1) * bw) = true) ↔
        (equalLen A B (l * bw) (r * bw) bw = true ∧
          equalLen A B ((l + 1) * bw) ((r + 1) * bw) (n * bw) = true) := by
      simp only [equalLen, beq_iff_eq]
      rw [hsplit A (l * bw), hsplit B (r * bw), hmul l, hmul r]
      constructor
      · intro h9
        exact List.append_inj h9 (hlenA.trans hlenB.symm)
      · rintro ⟨h1, h2⟩
        rw [h1, h2]
    rw [hdecomp, ih (l + 1) (r + 1) hlA hlB]
    constructor
    · rintro ⟨h0, hrest⟩ i hin
      cases i with
      | zero => simpa using h0
      | succ i =>
        have h9 := hrest i (by omega)
        have ha : l + 1 + i = l + (i + 1) := by omega
        have hb : r + 1 + i = r + (i + 1) := by omega
        rw [ha, hb] at h9
        exact h9
    · intro h9
      refine ⟨by simpa using h9 0 (by omega), fun i hin => ?_⟩
      have h8 := h9 (i + 1) (by omega)
      have ha : l + 1 + i = l + (i + 1) := by omega
      have hb : r + 1 + i = r + (i + 1) := by omega
      rw [ha, hb]
      exact h8

theorem takeColumns_no_check {opts : TakeOptions} (hopt : opts.checkBounds = false)
    (indices : PrimArray Nat) (cols : List (PrimArray Int)) :
    takeColumns opts indices cols
      = Except.ok (cols.map fun c => takePrimitive c indices) := by
  induction cols with
  | nil => rfl
  | cons c cs ih => simp [takeColumns, hopt, ih]

/-!
## Concrete instances used by witnesses and counterexamples
-/

/-- A list array holding the single empty list `[[]]`. -/
def c1ListValues : ListArr :=
  { offsets := [0, 0], child := { vals := [], valid := none }, valid := none }

/-- The index array `[0]` with no nulls. -/
def c1ListIdx : PrimArray Nat := { vals := [0], valid := none }

/-- A one-field struct array of length 1. -/
def c1StructValues : StructArr :=
  { len := 1, cols := [{ vals := [5], valid := none }], valid := none }

/-- The index array `[null]` (stored slot value 0). -/
def c1StructIdx : PrimArray Nat := { vals := [0], valid := some [false] }

/-- Index array `[1, null]` used by the null-propagation witness. -/
def cwIdx : PrimArray Nat := { vals := [1, 0], valid := some [true, false] }

def cwPrim : PrimArray Int := { vals := [7, 8], valid := some [false, true] }

def cwBool : PrimArray Bool := { vals := [true, false], valid := some [true, false] }

def cwStr : StringArr := { vals := [[104, 105], []], valid := some [true, false] }

def cwList : ListArr :=
  { offsets := [0, 2, 3], child := { vals := [1, 2, 3], valid := none }, valid := none }

def cwFsl : FSLArr :=
  { size := 2, child := { vals := [1, 2, 3, 4], valid := none }, len := 2,
    valid := some [true, true] }

def cwDict : DictArr StringArr :=
  { keys := { vals := [0, 1], valid := some [true, true] },
    childData := { vals := [[97]], valid := none } }

def cwStruct : StructArr :=
  { len := 2, cols := [{ vals := [1, 2], valid := some [true, false] }], valid := none }

/-!
## Claims
-/

/-- C1 (corrected).  Take null propagation: output position `i` is null iff
`indices[i]` is null or `values[indices[i]]` is null — this holds at the
primitive, boolean, string, fixed-size-list and dictionary layouts.  At the
list layout the output position is null exactly when its resolved child
range is empty (covering null indices, null source slots with degenerate
offset pairs, and also *empty* source lists, which falsifies the claimed
equivalence).  At the struct layout the assembled output carries no
top-level null bitmap, so no output position is top-level null; nulls
appear only in the children. -/
theorem take_null_propagation {χ : Type} (pv : PrimArray Int)
    (bv : PrimArray Bool) (sv : StringArr) (lv : ListArr) (fv : FSLArr)
    (dv : DictArr χ) (st : StructArr) (indices : PrimArray Nat)
    (hw : indices.wf = true) (i : Nat) (hi : i < indices.len) :
    ((takePrimitive pv indices).isNullAt i
        = (indices.isNull i || pv.isNull (indices.value i)))
  ∧ ((takeBoolean bv indices).isNullAt i
        = (indices.isNull i || bv.isNull (indices.value i)))
  ∧ ((takeString sv indices).isNullAt i
        = (indices.isNull i || sv.isNull (indices.value i)))
  ∧ ((takeFixedSizeList fv indices).isNullAt i
        = (indices.isNull i || fv.isNull (indices.value i)))
  ∧ ((takeDict dv indices).isNullAt i
        = (indices.isNull i || dv.isNull (indices.value i)))
  ∧ ((takeList lv indices).isNullAt i = (listRangeLen lv indices i == 0))
  ∧ ((takeStruct st indices).nulls = none
        ∧ (takeStruct st indices).isNullAt i = false) :=
  ⟨takePrimitive_isNullAt pv indices hw hi,
   takeBoolean_isNullAt bv indices hw hi,
   takeString_isNullAt sv indices hw hi,
   takeFixedSizeList_isNullAt fv indices hi,
   takeDict_isNullAt dv indices hw hi,
   takeList_isNullAt_rangeLen lv indices hi,
   rfl, rfl⟩

/-- C1 counterexample.  At the list layout, taking the single *empty* list
at a valid, non-null index yields a null output position although neither
`indices[0]` nor `values[0]` is null; at the struct layout a null index
yields a non-null top-level output position. -/
theorem take_null_propagation_cex :
    ((takeList c1ListValues c1ListIdx).isNullAt 0 = true
      ∧ c1ListIdx.isNull 0 = false ∧ c1ListValues.isNull 0 = false)
  ∧ ((takeStruct c1StructValues c1StructIdx).isNullAt 0 = false
      ∧ c1StructIdx.isNull 0 = true) := by decide

/-- C1 witness: the amended propagation evaluated at concrete arrays of each
layout, at output position 0. -/
theorem take_null_propagation_witness :
    (cwIdx.wf = true ∧ 0 < cwIdx.len)
  ∧ (((takePrimitive cwPrim cwIdx).isNullAt 0
        = (cwIdx.isNull 0 || cwPrim.isNull (cwIdx.value 0)))
    ∧ ((takeBoolean cwBool cwIdx).isNullAt 0
        = (cwIdx.isNull 0 || cwBool.isNull (cwIdx.value 0)))
    ∧ ((takeString cwStr cwIdx).isNullAt 0
        = (cwIdx.isNull 0 || cwStr.isNull (cwIdx.value 0)))
    ∧ ((takeFixedSizeList cwFsl cwIdx).isNullAt 0
        = (cwIdx.isNull 0 || cwFsl.isNull (cwIdx.value 0)))
    ∧ ((takeDict cwDict cwIdx).isNullAt 0
        = (cwIdx.isNull 0 || cwDict.isNull (cwIdx.value 0)))
    ∧ ((takeList cwList cwIdx).isNullAt 0 = (listRangeLen cwList cwIdx 0 == 0))
    ∧ ((takeStruct cwStruct cwIdx).nulls = none
        ∧ (takeStruct cwStruct cwIdx).isNullAt 0 = false)) :=
  ⟨⟨by decide, by decide⟩,
   take_null_propagation cwPrim cwBool cwStr cwList cwFsl cwDict cwStruct cwIdx
     (by decide) 0 (by decide)⟩

/-- Physical lhs of the C2 failing input: the one-element array `[null]`
(stored byte 0). -/
def c2Lhs : ArrayDataP :=
  { buffer := [0], offset := 0, len := 1, nullBitmap := some [false] }

/-- Physical rhs of the C2 failing input: the one-element array `[1]`, no
nulls. -/
def c2Rhs : ArrayDataP :=
  { buffer := [1], offset := 0, len := 1, nullBitmap := none }

/-- C2 (code bug).  `primitive_equal` short-circuits on `lhs_is_null ||`
before comparing nullness, so a null lhs position compares equal to a
*non-null* rhs position: with `lhs = [null]`, `rhs = [1]` the kernel returns
`true`, while the claimed rule requires `false` — and swapping the
arguments returns `false`, so the comparison is not even symmetric. -/
theorem primitive_equal_null_asymmetry :
    primitiveEqual 1 c2Lhs c2Rhs 0 0 1 = true
  ∧ primitiveEqual 1 c2Rhs c2Lhs 0 0 1 = false := by decide

/-- C3 (confirmed).  With `check_bounds = true`, if `i` is the first
position holding a non-null index `≥ values.len`, `take` returns the
`ComputeError` naming that index and the domain size — for the values array
of *any* layout, before any per-type output construction, and no output is
produced. -/
theorem take_bounds_error (values : ArrV) (indices : PrimArray Nat) (i : Nat)
    (hi : i < indices.len) (hvalid : indices.isValid i = true)
    (hoob : values.lenV ≤ indices.value i)
    (hfirst : ∀ j, j < i → indices.isValid j = true →
      indices.value j < values.lenV) :
    take values indices (some { checkBounds := true })
      = Except.error
          (ArrowError.ComputeError (oobMessage (indices.value i) values.lenV)) := by
  have hb := boundsCheck_error values.lenV indices hi hvalid hoob hfirst
  simp [take, takeImpl, hb]

/-- The C3 witness values array: 5 entries (spec scenario 5). -/
def c3Values : ArrV :=
  .primV { vals := [0, 0, 2, 3, 0], valid := some [true, false, true, true, false] }

/-- The C3 witness index array `[3, null, 1, 3, 6]`: the first offending
non-null index is 6, at position 4. -/
def c3Idx : PrimArray Nat :=
  { vals := [3, 0, 1, 3, 6], valid := some [true, false, true, true, true] }

/-- C3 witness: domain size 5, offending index 6 — `take` returns the
ComputeError naming 6 and 5. -/
theorem take_bounds_error_witness :
    (4 < c3Idx.len ∧ c3Idx.isValid 4 = true ∧ c3Values.lenV ≤ c3Idx.value 4
      ∧ ∀ j, j < 4 → c3Idx.isValid j = true → c3Idx.value j < c3Values.lenV)
  ∧ take c3Values c3Idx (some { checkBounds := true })
      = Except.error (ArrowError.ComputeError (oobMessage 6 5)) :=
  ⟨⟨by decide, by decide, by decide, by decide⟩,
   take_bounds_error c3Values c3Idx 4 (by decide) (by decide) (by decide)
     (by decide)⟩

/-- The C4 values array: `[7]`, no nulls, unsliced. -/
def c4Values : PrimArrayP Int :=
  { vals := [7], offset := 0, len := 1, nullBitmap := none }

/-- The C4 unsliced index array: logical content `[0]`, valid. -/
def c4FlatIdx : PrimArrayP Nat :=
  { vals := [0], offset := 0, len := 1, nullBitmap := some [true] }

/-- The C4 sliced index array: a zero-copy slice (offset 1, length 1) of the
two-element array `[null, 0]` — the same logical content `[0]` as
`c4FlatIdx`. -/
def c4SlicedIdx : PrimArrayP Nat :=
  { vals := [0, 0], offset := 1, len := 1, nullBitmap := some [false, true] }

/-- C4 (code bug).  The two index arrays have identical logical content,
yet `take_primitive` returns a valid `7` for the unsliced one and a *null*
for the sliced one: the source reuses (and `buffer_bin_and`s) the indices'
raw null bitmap at bit offset 0 instead of the slice's offset, so the
physical offset leaks into the result. -/
theorem take_slice_offset_leak :
    (c4SlicedIdx.len = c4FlatIdx.len
      ∧ c4SlicedIdx.value 0 = c4FlatIdx.value 0
      ∧ c4SlicedIdx.isValid 0 = c4FlatIdx.isValid 0)
  ∧ (takePrimitiveP c4Values c4FlatIdx).isValid 0 = true
  ∧ (takePrimitiveP c4Values c4FlatIdx).value 0 = 7
  ∧ (takePrimitiveP c4Values c4SlicedIdx).isValid 0 = false := by decide

/-- C5 (confirmed).  Dictionary take regenerates only the keys — the new
keys' value buffer and null buffer are exactly those of the primitive take
of the keys — and the returned dictionary's value child is the input's
child data itself, unchanged; the output length is the index count. -/
theorem take_dict_shares_child {χ : Type} (dict : DictArr χ)
    (indices : PrimArray Nat) :
    (takeDict dict indices).payload.2 = dict.childData
  ∧ (takeDict dict indices).payload.1 = (takePrimitive dict.keys indices).payload
  ∧ (takeDict dict indices).nulls = (takePrimitive dict.keys indices).nulls
  ∧ (takeDict dict indices).len = indices.len :=
  ⟨rfl, rfl, rfl, rfl⟩

/-- The C6 counterexample struct: two fields, length 4 (the in-source test
struct). -/
def c6Struct : StructArr :=
  { len := 4,
    cols := [{ vals := [1, 0, 0, 1], valid := none },
             { vals := [42, 28, 19, 31], valid := none }],
    valid := none }

/-- The C6 counterexample index array `[null, 3]`. -/
def c6Idx : PrimArray Nat := { vals := [0, 3], valid := some [false, true] }

/-- C6 counterexample.  Taking a struct with a null index does *not* make
the corresponding output struct position null: the assembled struct carries
no top-level null bitmap (matching the in-source test
`test_take_struct_with_nulls`, which asserts `null_count == 0`). -/
theorem take_struct_null_bitmap_cex :
    (takeStruct c6Struct c6Idx).isNullAt 0 = false
  ∧ c6Idx.isNull 0 = true := by decide

/-- C6 (corrected).  Struct take recursively takes every child field with
the same index array — each child's output position `i` is null iff
`indices[i]` is null or that child's source slot is null — but the
assembled struct carries *no* top-level null bitmap: its `nulls` is absent
and no top-level output position is null. -/
theorem take_struct_children (sv : StructArr) (indices : PrimArray Nat)
    (hw : indices.wf = true) (i : Nat) (hi : i < indices.len) (j : Nat) :
    takeImpl (.structV sv) indices none
        = Except.ok (.structO (takeStruct sv indices))
  ∧ (takeStruct sv indices).nulls = none
  ∧ (takeStruct sv indices).isNullAt i = false
  ∧ (takeStruct sv indices).payload
      = (sv.cols.map fun c => takePrimitive c indices)
  ∧ ((takePrimitive (sv.cols.getD j { vals := [], valid := none }) indices).isNullAt i
      = (indices.isNull i
          || (sv.cols.getD j { vals := [], valid := none }).isNull (indices.value i))) := by
  refine ⟨?_, rfl, rfl, rfl, takePrimitive_isNullAt _ indices hw hi⟩
  simp [takeImpl, TakeOptions.defaultOptions, takeColumns_no_check rfl, takeStruct]

/-- C6 witness: the corrected struct behaviour at a concrete two-position
take with a null index, evaluated at position 0 and field 0. -/
theorem take_struct_children_witness :
    (cwIdx.wf = true ∧ 0 < cwIdx.len)
  ∧ (takeImpl (.structV cwStruct) cwIdx none
        = Except.ok (.structO (takeStruct cwStruct cwIdx))
    ∧ (takeStruct cwStruct cwIdx).nulls = none
    ∧ (takeStruct cwStruct cwIdx).isNullAt 0 = false
    ∧ (takeStruct cwStruct cwIdx).payload
        = (cwStruct.cols.map fun c => takePrimitive c cwIdx)
    ∧ ((takePrimitive (cwStruct.cols.getD 0 { vals := [], valid := none }) cwIdx).isNullAt 0
        = (cwIdx.isNull 0
            || (cwStruct.cols.getD 0 { vals := [], valid := none }).isNull (cwIdx.value 0)))) :=
  ⟨⟨by decide, by decide⟩,
   take_struct_children cwStruct cwIdx (by decide) 0 (by decide) 0⟩

/-- The C7 witness list array `[[0,0,0], [-1,-2,-1], [2,3]]` (spec
scenario 3). -/
def c7List : ListArr :=
  { offsets := [0, 3, 6, 8],
    child := { vals := [0, 0, 0, -1, -2, -1, 2, 3], valid := none },
    valid := none }

/-- The C7 witness index array `[2, null, 1, 2, 0]`. -/
def c7Idx : PrimArray Nat :=
  { vals := [2, 0, 1, 2, 0], valid := some [true, false, true, true, true] }

/-- C7 (confirmed).  List take recomputes the output offsets as running
sums of the resolved child range lengths (starting at 0, one entry per
output position plus one), and marks output position `i` null exactly when
`offsets[i] == offsets[i+1]`. -/
theorem take_list_offsets_nulls (lv : ListArr) (indices : PrimArray Nat)
    (i : Nat) (hi : i < indices.len) :
    ((takeList lv indices).isNullAt i = true ↔
      (takeList lv indices).payload.1.getD i 0
        = (takeList lv indices).payload.1.getD (i + 1) 0)
  ∧ (takeList lv indices).payload.1.getD 0 0 = 0
  ∧ (takeList lv indices).payload.1.getD (i + 1) 0
      = (takeList lv indices).payload.1.getD i 0 + listRangeLen lv indices i
  ∧ (takeList lv indices).payload.1.length = indices.len + 1 :=
  ⟨takeList_isNullAt_iff lv indices hi, takeList_offsets_zero lv indices,
   takeList_offsets_succ lv indices hi,
   by simp [takeList, takeValueIndicesFromList, List.length_scanl]⟩

/-- C7 witness: the offsets/null relation at position 1 (the null index) of
the concrete list take. -/
theorem take_list_offsets_nulls_witness :
    (1 < c7Idx.len)
  ∧ (((takeList c7List c7Idx).isNullAt 1 = true ↔
        (takeList c7List c7Idx).payload.1.getD 1 0
          = (takeList c7List c7Idx).payload.1.getD 2 0)
    ∧ (takeList c7List c7Idx).payload.1.getD 0 0 = 0
    ∧ (takeList c7List c7Idx).payload.1.getD 2 0
        = (takeList c7List c7Idx).payload.1.getD 1 0 + listRangeLen c7List c7Idx 1
    ∧ (takeList c7List c7Idx).payload.1.length = c7Idx.len + 1) :=
  ⟨by decide, take_list_offsets_nulls c7List c7Idx 1 (by decide)⟩

/-- The C8 witness string array `["one", null, "t", "four", "five"]` as
byte lists. -/
def c8Str : StringArr :=
  { vals := [[111, 110, 101], [], [116], [102, 111, 117, 114],
             [102, 105, 118, 101]],
    valid := some [true, false, true, true, true] }

/-- The C8 witness index array `[3, null, 1, 3, 4]` (spec scenario 2). -/
def c8Idx : PrimArray Nat :=
  { vals := [3, 0, 1, 3, 4], valid := some [true, false, true, true, true] }

/-- C8 (confirmed).  String take builds the offsets buffer from a running
byte total starting at 0: a non-null output position appends the resolved
source element's bytes and advances the total by its byte length, a null
output position leaves the total unchanged (so `offsets[i] == offsets[i+1]`
for a null slot), and the value buffer is exactly the concatenation of the
bytes of the non-null positions. -/
theorem take_string_running_total (sv : StringArr) (indices : PrimArray Nat)
    (hw : indices.wf = true) (i : Nat) (hi : i < indices.len) :
    (takeString sv indices).payload.1.getD 0 0 = 0
  ∧ ((takeString sv indices).isNullAt i = false →
      (takeString sv indices).payload.1.getD (i + 1) 0
        = (takeString sv indices).payload.1.getD i 0
            + (sv.value (indices.value i)).length)
  ∧ ((takeString sv indices).isNullAt i = true →
      (takeString sv indices).payload.1.getD (i + 1) 0
        = (takeString sv indices).payload.1.getD i 0)
  ∧ (takeString sv indices).payload.2
      = (List.range indices.len).flatMap fun j =>
          if (takeString sv indices).isNullAt j then []
          else sv.value (indices.value j) := by
  have hs : (takeString sv indices).payload.1.getD (i + 1) 0
      = (takeString sv indices).payload.1.getD i 0
        + (if stringKeep sv indices i then (sv.value (indices.value i)).length
           else 0) :=
    scanl_range_getD_succ _ _ hi
  refine ⟨scanl_range_getD_zero _ _ 0, ?_, ?_, ?_⟩
  · intro hnn
    have hk : stringKeep sv indices i = true := by
      have h9 := takeString_isNullAt_keep sv indices hw hi
      rw [hnn] at h9
      cases hkv : stringKeep sv indices i
      · rw [hkv] at h9; simp at h9
      · rfl
    rw [hs, if_pos hk]
  · intro hnn
    have hk : stringKeep sv indices i = false := by
      have h9 := takeString_isNullAt_keep sv indices hw hi
      rw [hnn] at h9
      cases hkv : stringKeep sv indices i
      · rfl
      · rw [hkv] at h9; simp at h9
    rw [hs, if_neg (by simp [hk]), Nat.add_zero]
  · have hb : (takeString sv indices).payload.2
        = (List.range indices.len).flatMap fun j =>
            if stringKeep sv indices j then sv.value (indices.value j) else [] := rfl
    rw [hb]
    refine flatMap_congr fun j hj => ?_
    have hjn : j < indices.len := List.mem_range.mp hj
    rw [takeString_isNullAt_keep sv indices hw hjn]
    cases stringKeep sv indices j <;> simp

/-- C8 witness: the running-total relations at position 0 (a non-null slot
resolving to "four") of the concrete string take. -/
theorem take_string_running_total_witness :
    (c8Idx.wf = true ∧ 0 < c8Idx.len)
  ∧ ((takeString c8Str c8Idx).payload.1.getD 0 0 = 0
    ∧ ((takeString c8Str c8Idx).isNullAt 0 = false →
        (takeString c8Str c8Idx).payload.1.getD 1 0
          = (takeString c8Str c8Idx).payload.1.getD 0 0
              + (c8Str.value (c8Idx.value 0)).length)
    ∧ ((takeString c8Str c8Idx).isNullAt 0 = true →
        (takeString c8Str c8Idx).payload.1.getD 1 0
          = (takeString c8Str c8Idx).payload.1.getD 0 0)
    ∧ (takeString c8Str c8Idx).payload.2
        = (List.range c8Idx.len).flatMap fun j =>
            if (takeString c8Str c8Idx).isNullAt j then []
            else c8Str.value (c8Idx.value j)) :=
  ⟨⟨by decide, by decide⟩,
   take_string_running_total c8Str c8Idx (by decide) 0 (by decide)⟩

/-- C9 (confirmed).  When neither side has nulls in its window,
`primitive_equal` takes the fast path — one raw byte-range comparison over
`len * byte_width` bytes — and that comparison returns the same boolean as
comparing the `len` individual `byte_width`-wide windows position by
position, provided both buffers cover the compared ranges. -/
theorem primitive_equal_fast_path (bw : Nat) (lhs rhs : ArrayDataP)
    (lhsStart rhsStart len : Nat)
    (h1 : lhs.nullCount = 0) (h2 : rhs.nullCount = 0)
    (hA : (lhs.offset + lhsStart + len) * bw ≤ lhs.buffer.length)
    (hB : (rhs.offset + rhsStart + len) * bw ≤ rhs.buffer.length) :
    primitiveEqual bw lhs rhs lhsStart rhsStart len
      = ((List.range len).all fun i =>
          equalLen (lhs.buffer.drop (lhs.offset * bw))
            (rhs.buffer.drop (rhs.offset * bw))
            ((lhsStart + i) * bw) ((rhsStart + i) * bw) bw) := by
  have hfast : primitiveEqual bw lhs rhs lhsStart rhsStart len
      = equalLen (lhs.buffer.drop (lhs.offset * bw))
          (rhs.buffer.drop (rhs.offset * bw))
          (lhsStart * bw) (rhsStart * bw) (len * bw) := by
    simp [primitiveEqual, h1, h2]
  have hA' : (lhsStart + len) * bw ≤ (lhs.buffer.drop (lhs.offset * bw)).length := by
    simp only [List.length_drop]
    have h9 : (lhs.offset + lhsStart + len) * bw
        = lhs.offset * bw + (lhsStart + len) * bw := by ring
    omega
  have hB' : (rhsStart + len) * bw ≤ (rhs.buffer.drop (rhs.offset * bw)).length := by
    simp only [List.length_drop]
    have h9 : (rhs.offset + rhsStart + len) * bw
        = rhs.offset * bw + (rhsStart + len) * bw := by ring
    omega
  have hiff := equalLen_windows (lhs.buffer.drop (lhs.offset * bw))
    (rhs.buffer.drop (rhs.offset * bw)) bw len lhsStart rhsStart hA' hB'
  have hall : (((List.range len).all fun i =>
      equalLen (lhs.buffer.drop (lhs.offset * bw))
        (rhs.buffer.drop (rhs.offset * bw))
        ((lhsStart + i) * bw) ((rhsStart + i) * bw) bw) = true) ↔
      ∀ i, i < len →
        equalLen (lhs.buffer.drop (lhs.offset * bw))
          (rhs.buffer.drop (rhs.offset * bw))
          ((lhsStart + i) * bw) ((rhsStart + i) * bw) bw = true := by
    simp [List.all_eq_true]
  rw [hfast]
  rcases Bool.eq_false_or_eq_true (equalLen (lhs.buffer.drop (lhs.offset * bw))
      (rhs.buffer.drop (rhs.offset * bw))
      (lhsStart * bw) (rhsStart * bw) (len * bw)) with hv | hv
  · rw [hv, Eq.comm, hall]
    exact hiff.mp hv
  · rw [hv]
    rcases Bool.eq_false_or_eq_true ((List.range len).all fun i =>
        equalLen (lhs.buffer.drop (lhs.offset * bw))
          (rhs.buffer.drop (rhs.offset * bw))
          ((lhsStart + i) * bw) ((rhsStart + i) * bw) bw) with hv2 | hv2
    · exact absurd (hiff.mpr (hall.mp hv2)) (by simp [hv])
    · rw [hv2]

/-- The C9 witness buffers: two-byte-wide elements, lhs sliced at offset 1.
Logical contents agree on the compared windows. -/
def c9Lhs : ArrayDataP :=
  { buffer := [9, 9, 1, 2, 3, 4], offset := 1, len := 2, nullBitmap := none }

def c9Rhs : ArrayDataP :=
  { buffer := [1, 2, 3, 4], offset := 0, len := 2, nullBitmap := none }

/-- C9 witness: the fast path agrees with the window-by-window comparison on
concrete two-element arrays of byte width 2. -/
theorem primitive_equal_fast_path_witness :
    (c9Lhs.nullCount = 0 ∧ c9Rhs.nullCount = 0
      ∧ (c9Lhs.offset + 0 + 2) * 2 ≤ c9Lhs.buffer.length
      ∧ (c9Rhs.offset + 0 + 2) * 2 ≤ c9Rhs.buffer.length)
  ∧ primitiveEqual 2 c9Lhs c9Rhs 0 0 2
      = ((List.range 2).all fun i =>
          equalLen (c9Lhs.buffer.drop (c9Lhs.offset * 2))
            (c9Rhs.buffer.drop (c9Rhs.offset * 2))
            ((0 + i) * 2) ((0 + i) * 2) 2) :=
  ⟨⟨by decide, by decide, by decide, by decide⟩,
   primitive_equal_fast_path 2 c9Lhs c9Rhs 0 0 2 (by decide) (by decide)
     (by decide) (by decide)⟩

/-- C10 (confirmed).  Whenever `take` returns `Ok`, the returned array's
logical length is the index array's length and its logical offset is 0, at
every layout (for a struct values array, provided it has at least one
field — the source panics on a zero-field struct rather than returning
`Ok`). -/
theorem take_ok_len_offset (values : ArrV) (indices : PrimArray Nat)
    (options : Option TakeOptions) (out : OutV)
    (hne : values.structNonempty = true)
    (h : take values indices options = Except.ok out) :
    out.lenO = indices.len ∧ out.offsetO = 0 := by
  simp only [take, takeImpl] at h
  cases hb : (if (options.getD TakeOptions.defaultOptions).checkBounds = true
      then boundsCheck values.lenV indices else Except.ok ()) with
  | error e => rw [hb] at h; cases h
  | ok u =>
    rw [hb] at h
    cases values with
    | primV a =>
      cases h
      exact ⟨rfl, rfl⟩
    | boolV a =>
      cases h
      constructor
      · simp only [OutV.lenO, takeBoolean]
        split <;> rfl
      · simp only [OutV.offsetO, takeBoolean]
        split <;> rfl
    | strV a =>
      cases h
      exact ⟨rfl, rfl⟩
    | listV a =>
      cases h
      exact ⟨rfl, rfl⟩
    | fslV a =>
      cases h
      exact ⟨rfl, rfl⟩
    | structV a =>
      cases hc : takeColumns (options.getD TakeOptions.defaultOptions) indices a.cols with
      | error e => simp [hc] at h
      | ok arrays =>
        simp only [hc, Except.ok.injEq] at h
        subst h
        have harr := takeColumns_ok hc
        subst harr
        cases hcols : a.cols with
        | nil => simp [ArrV.structNonempty, hcols] at hne
        | cons c cs => exact ⟨rfl, rfl⟩
    | dictV a =>
      cases h
      exact ⟨rfl, rfl⟩

/-- The C10 witness: a plain primitive take. -/
def c10Values : ArrV :=
  .primV { vals := [10, 20, 30], valid := none }

def c10Idx : PrimArray Nat := { vals := [2, 0], valid := none }

def c10Out : OutV := .primO (takePrimitive { vals := [10, 20, 30], valid := none } c10Idx)

/-- C10 witness: the concrete primitive take returns `Ok` with length 2 and
offset 0. -/
theorem take_ok_len_offset_witness :
    (c10Values.structNonempty = true
      ∧ take c10Values c10Idx none = Except.ok c10Out)
  ∧ (c10Out.lenO = c10Idx.len ∧ c10Out.offsetO = 0) :=
  ⟨⟨by decide, by rfl⟩,
   take_ok_len_offset c10Values c10Idx none c10Out (by decide) (by rfl)⟩
